import Mathlib

/-!
# Verification of the context-aware interruption handler

Shallow embedding of `src/livekit-agents/livekit/agents/voice/interruption_handler.py`.

Modelling conventions:
* Text is a list of Unicode code points (`List Nat`).  The helper `str`
  converts a Lean string literal to its code-point list.
* The character classes (`\w`, `\s`, `str.lower`, `str.strip`) are modelled on
  the ASCII fragment that Python's Unicode-aware versions agree with on ASCII
  text; every vocabulary phrase in the source is ASCII.
* Python `set[str]` vocabularies are modelled as duplicate-free lists; the
  source iterates over sets in an unspecified (hash) order, the model iterates
  in list order.
* `time.time()` is modelled by an explicit `now : ℚ` argument threaded through
  the calls; consecutive reads of the clock inside one `classify` call are
  modelled as the same instant.
* Python floats are modelled as exact rationals (`ℚ`); the clamping structure
  `min`/`max` of the source is preserved verbatim.
* Logging is pure output in the source; only its state effects (the lazy
  pruning performed by `get_level`/`get_count`) are modelled.
-/

/-- Code points of a string literal. -/
def str (s : String) : List Nat := s.data.map Char.toNat

/-- ASCII fragment of Python's regex class `\w`: letters, digits, underscore. -/
def isWordChar (c : Nat) : Bool :=
  (97 ≤ c && c ≤ 122) || (65 ≤ c && c ≤ 90) || (48 ≤ c && c ≤ 57) || (c == 95)

/-- ASCII fragment of Python's regex class `\s`: space, tab, LF, VT, FF, CR. -/
def isSpaceChar (c : Nat) : Bool :=
  (c == 32) || (c == 9) || (c == 10) || (c == 11) || (c == 12) || (c == 13)

/-- ASCII fragment of Python's `str.lower` on a single character. -/
def toLowerChar (c : Nat) : Nat :=
  if 65 ≤ c ∧ c ≤ 90 then c + 32 else c

/-- One character of `re.sub(r"[^\w\s-]", " ", text)`:
every character that is not a word character, whitespace or hyphen becomes a
space. -/
def punctToSpace (c : Nat) : Nat :=
  if isWordChar c || isSpaceChar c || c == 45 then c else 32

/-- Whether a list starts with a word character (used by the hyphen rule's
lookahead). -/
def headIsWord : List Nat → Bool
  | [] => false
  | d :: _ => isWordChar d

/-- `re.sub(r"(?<!\w)-|-(?!\w)", " ", text)`: a hyphen is kept only when both
its neighbours in the original string are word characters, otherwise it becomes
a space.  `prevWord` records whether the previous original character was a word
character. -/
def fixHyphens (prevWord : Bool) : List Nat → List Nat
  | [] => []
  | c :: rest =>
    (if c == 45 then (if prevWord && headIsWord rest then 45 else 32) else c) ::
      fixHyphens (isWordChar c) rest

/-- `re.sub(r"\s+", " ", text)`: each maximal run of whitespace becomes a
single space. -/
def collapseSpaces : List Nat → List Nat
  | [] => []
  | [c] => [if isSpaceChar c then 32 else c]
  | c :: d :: rest =>
    if isSpaceChar c && isSpaceChar d then collapseSpaces (d :: rest)
    else (if isSpaceChar c then 32 else c) :: collapseSpaces (d :: rest)

/-- Remove leading whitespace (half of Python's `str.strip`). -/
def stripLeft (s : List Nat) : List Nat := s.dropWhile isSpaceChar

/-- Remove trailing whitespace (the other half of Python's `str.strip`). -/
def stripRight : List Nat → List Nat
  | [] => []
  | c :: rest =>
    let r := stripRight rest
    if r.isEmpty && isSpaceChar c then [] else c :: r

/-- Python's `str.strip()`. -/
def strip (s : List Nat) : List Nat := stripRight (stripLeft s)

/-- `_normalize_text` from the source: lowercase, strip, replace punctuation by
spaces, drop dangling hyphens, collapse whitespace, strip again.  (The source's
initial `if not text: return ""` shortcut is subsumed: the pipeline maps the
empty list to the empty list.) -/
def normalizeText (s : List Nat) : List Nat :=
  strip (collapseSpaces (fixHyphens false
    ((strip (s.map toLowerChar)).map punctToSpace)))

/-- Worker for `tokenize`: `cur` is the reversed current token. -/
def tokenizeAux (cur : List Nat) : List Nat → List (List Nat)
  | [] => if cur.isEmpty then [] else [cur.reverse]
  | c :: rest =>
    if isSpaceChar c then
      if cur.isEmpty then tokenizeAux [] rest
      else cur.reverse :: tokenizeAux [] rest
    else tokenizeAux (c :: cur) rest

/-- `_tokenize` / Python `str.split()`: whitespace-separated tokens, no empty
tokens. -/
def tokenize (s : List Nat) : List (List Nat) := tokenizeAux [] s

/-- Python's substring test `needle in hay` (for sequences over any type with
decidable equality; instantiated at code-point lists and at token lists). -/
def containsSeq {α : Type} [DecidableEq α] (needle : List α) : List α → Bool
  | [] => needle.isEmpty
  | c :: rest => needle.isPrefixOf (c :: rest) || containsSeq needle rest

/-- `str.replace(pat, rep)` from Python: replace every (leftmost,
non-overlapping) occurrence of `pat` by `rep`.  Every pattern used by the
source is a multi-word phrase, hence non-empty; on an empty pattern this model
returns the text unchanged. -/
def replaceAllAux (pat rep : List Nat) : Nat → List Nat → List Nat
  | _, [] => []
  | 0, s => s
  | fuel + 1, c :: rest =>
    if pat ≠ [] ∧ pat.isPrefixOf (c :: rest) then
      rep ++ replaceAllAux pat rep fuel ((c :: rest).drop pat.length)
    else c :: replaceAllAux pat rep fuel rest

/-- Entry point of `replaceAllAux`; the fuel `s.length` is never exhausted
because each step consumes at least one character. -/
def replaceAll (pat rep s : List Nat) : List Nat :=
  replaceAllAux pat rep s.length s

/-- `_contains_any_phrase` from the source: multi-word phrases are tested by
literal substring containment, single words by membership in the token set;
multi-word matches are listed first.  (The source iterates a Python `set`, the
model the corresponding list.) -/
def containsAnyPhrase (text : List Nat) (phrases : List (List Nat)) :
    Bool × List (List Nat) :=
  let multi := phrases.filter (fun p => p.contains 32 && containsSeq p text)
  let words := tokenize text
  let single := phrases.filter (fun p => !p.contains 32 && words.contains p)
  let found := multi ++ single
  (!found.isEmpty, found)

/-- `_is_only_acknowledgements` from the source: strip every multi-word
acknowledgement phrase (replacing it by a space), then every remaining token
must be a single-word acknowledgement. -/
def isOnlyAcknowledgements (text : List Nat) (acks : List (List Nat)) : Bool :=
  if text.isEmpty then false
  else
    let remaining := acks.foldl
      (fun r p => if p.contains 32 then replaceAll p [32] r else r) text
    let words := tokenize remaining
    if words.isEmpty then true
    else words.all (fun w =>
      (acks.filter (fun p => !p.contains 32)).contains w)

/-! ## Default vocabularies (`DEFAULT_*` constants of the source) -/

/-- `DEFAULT_PASSIVE_ACKNOWLEDGEMENTS` from the source. -/
def DEFAULT_PASSIVE_ACKNOWLEDGEMENTS : List (List Nat) :=
  [str "yeah", str "yep", str "yup", str "yes",
   str "ok", str "okay", str "k",
   str "hmm", str "hmmm", str "mmm", str "mmmm", str "uh", str "uhh",
   str "um", str "umm",
   str "uh-huh", str "uh huh", str "mm-hmm", str "mm hmm", str "mhm",
   str "mmhmm",
   str "right", str "alright", str "i see", str "got it", str "gotcha",
   str "sure", str "fine", str "cool", str "nice", str "good", str "great",
   str "go on", str "continue", str "and"]

/-- `DEFAULT_INTERRUPT_COMMANDS` from the source. -/
def DEFAULT_INTERRUPT_COMMANDS : List (List Nat) :=
  [str "stop", str "wait", str "pause", str "hold",
   str "no", str "nope", str "cancel", str "never mind", str "nevermind",
   str "hold on", str "listen", str "hey", str "excuse me",
   str "let me speak", str "let me talk", str "my turn", str "actually",
   str "wrong", str "incorrect", str "that's wrong", str "not right"]

/-- `DEFAULT_POSITIVE_INDICATORS` from the source. -/
def DEFAULT_POSITIVE_INDICATORS : List (List Nat) :=
  [str "yes", str "yeah", str "great", str "good", str "nice", str "perfect",
   str "works", str "fine", str "awesome", str "excellent", str "wonderful",
   str "thanks", str "thank you",
   str "helpful", str "correct", str "exactly", str "right", str "understood"]

/-- `DEFAULT_NEGATIVE_INDICATORS` from the source. -/
def DEFAULT_NEGATIVE_INDICATORS : List (List Nat) :=
  [str "no", str "stop", str "wait", str "wrong", str "bad", str "problem",
   str "issue",
   str "confusing", str "unclear", str "annoyed", str "frustrated",
   str "don't understand",
   str "what", str "huh", str "repeat", str "again", str "slower"]

/-! ## Result and tracker data types -/

/-- `EngagementLevel` from the source. -/
inductive EngagementLevel
  | LOW
  | MEDIUM
  | HIGH
deriving DecidableEq

/-- `InterruptionDecision` from the source. -/
inductive InterruptionDecision
  | IGNORE
  | INTERRUPT
  | PROCESS
deriving DecidableEq

/-- The `reason` strings produced by the source, one constructor per literal
format string; the interpolated match lists are carried as data. -/
inductive InterruptionReason
  | emptyInput
  | agentSilent
  | interruptCommandDetected (ms : List (List Nat))
  | passiveAcknowledgementOnly (ms : List (List Nat))
  | nonAcknowledgementContent
deriving DecidableEq

/-- `InterruptionResult` from the source. -/
structure InterruptionResult where
  decision : InterruptionDecision
  reason : InterruptionReason
  normalizedText : List Nat
  detectedCommands : List (List Nat) := []
  detectedAcknowledgements : List (List Nat) := []
deriving DecidableEq

/-- `EngagementState` from the source; timestamps are rationals, the clock is
passed explicitly. -/
structure EngagementState where
  acknowledgementTimestamps : List ℚ := []
  windowSeconds : ℚ := 8
deriving DecidableEq

/-- `EngagementState._cleanup_old`: drop timestamps at or before
`now - window`. -/
def EngagementState.cleanupOld (es : EngagementState) (now : ℚ) :
    EngagementState :=
  let cutoff := now - es.windowSeconds
  { es with acknowledgementTimestamps :=
      (es.acknowledgementTimestamps.filter (fun t => decide (cutoff < t))) }

/-- `EngagementState.add_acknowledgement`: append the current time, then
prune. -/
def EngagementState.addAcknowledgement (es : EngagementState) (now : ℚ) :
    EngagementState :=
  EngagementState.cleanupOld
    { es with acknowledgementTimestamps :=
        es.acknowledgementTimestamps ++ [now] } now

/-- `EngagementState.get_level`: prune, then derive the level by count
thresholds.  Returns the pruned state alongside the value because the source's
read mutates. -/
def EngagementState.getLevel (es : EngagementState) (now : ℚ) :
    EngagementLevel × EngagementState :=
  let es' := es.cleanupOld now
  let count := es'.acknowledgementTimestamps.length
  (if 3 ≤ count then .HIGH else if 1 ≤ count then .MEDIUM else .LOW, es')

/-- `EngagementState.get_count`: prune, then count. -/
def EngagementState.getCount (es : EngagementState) (now : ℚ) :
    Nat × EngagementState :=
  let es' := es.cleanupOld now
  (es'.acknowledgementTimestamps.length, es')

/-- `SatisfactionState` from the source; the score is an exact rational. -/
structure SatisfactionState where
  score : ℚ := 0
  lastSignal : List Nat := []
  lastText : List Nat := []
deriving DecidableEq

/-- `POSITIVE_DELTA = 0.15` from the source. -/
def POSITIVE_DELTA : ℚ := 15 / 100

/-- `NEGATIVE_DELTA = 0.20` from the source. -/
def NEGATIVE_DELTA : ℚ := 20 / 100

/-- `DECAY_RATE = 0.05` from the source. -/
def DECAY_RATE : ℚ := 5 / 100

/-- `SatisfactionState.update` from the source: tokenize the normalized text
and intersect with the indicator sets; positive-only raises the score by 0.15
clamped at 1, any negative lowers it by 0.20 clamped at -1. -/
def SatisfactionState.update (st : SatisfactionState) (text : List Nat)
    (positiveIndicators negativeIndicators : List (List Nat)) :
    SatisfactionState :=
  let normalized := normalizeText text
  let words := tokenize normalized
  let positiveFound := positiveIndicators.filter (fun p => words.contains p)
  let negativeFound := negativeIndicators.filter (fun p => words.contains p)
  if !positiveFound.isEmpty && negativeFound.isEmpty then
    { st with score := min 1 (st.score + POSITIVE_DELTA),
              lastSignal := str "positive", lastText := text }
  else if !negativeFound.isEmpty then
    { st with score := max (-1) (st.score - NEGATIVE_DELTA),
              lastSignal := str "negative", lastText := text }
  else st

/-- `SatisfactionState.decay` from the source: when the score is outside the
`0.01` dead band, move it toward zero by `DECAY_RATE`, clamped at zero. -/
def SatisfactionState.decay (st : SatisfactionState) : SatisfactionState :=
  if 1 / 100 < |st.score| then
    if 0 < st.score then { st with score := max 0 (st.score - DECAY_RATE) }
    else { st with score := min 0 (st.score + DECAY_RATE) }
  else st

/-! ## The decision engine -/

/-- The four vocabulary sets held by `InterruptionHandler.__init__`
(the environment-default path); immutable during classification. -/
structure HandlerConfig where
  passiveAcknowledgements : List (List Nat)
  interruptCommands : List (List Nat)
  positiveIndicators : List (List Nat)
  negativeIndicators : List (List Nat)

/-- The default configuration built by `__init__` when no environment
overrides are present. -/
def defaultConfig : HandlerConfig :=
  { passiveAcknowledgements := DEFAULT_PASSIVE_ACKNOWLEDGEMENTS,
    interruptCommands := DEFAULT_INTERRUPT_COMMANDS,
    positiveIndicators := DEFAULT_POSITIVE_INDICATORS,
    negativeIndicators := DEFAULT_NEGATIVE_INDICATORS }

/-- The mutable state of an `InterruptionHandler`: exactly the two
observational trackers. -/
structure HandlerState where
  engagementState : EngagementState
  satisfactionState : SatisfactionState
deriving DecidableEq

/-- The freshly-constructed handler state. -/
def initialHandlerState : HandlerState :=
  { engagementState := {}, satisfactionState := {} }

/-- `InterruptionHandler.classify` from the source, as a function from the
handler state to the result and the new state.  The clock reads inside one
call are modelled as the single instant `now`. -/
def classify (cfg : HandlerConfig) (st : HandlerState) (text : List Nat)
    (agentIsSpeaking : Bool) (now : ℚ) : InterruptionResult × HandlerState :=
  let normalized := normalizeText text
  if normalized.isEmpty then
    ({ decision := .IGNORE, reason := .emptyInput,
       normalizedText := normalized }, st)
  else
    let interruptHit := containsAnyPhrase normalized cfg.interruptCommands
    let ackHit := containsAnyPhrase normalized cfg.passiveAcknowledgements
    let isOnlyAck := isOnlyAcknowledgements normalized cfg.passiveAcknowledgements
    if !agentIsSpeaking then
      ({ decision := .PROCESS, reason := .agentSilent,
         normalizedText := normalized,
         detectedCommands := interruptHit.2,
         detectedAcknowledgements := ackHit.2 },
       { st with satisfactionState :=
           (st.satisfactionState.update text
             cfg.positiveIndicators cfg.negativeIndicators) })
    else if interruptHit.1 then
      ({ decision := .INTERRUPT,
         reason := .interruptCommandDetected interruptHit.2,
         normalizedText := normalized,
         detectedCommands := interruptHit.2,
         detectedAcknowledgements := ackHit.2 }, st)
    else if isOnlyAck then
      -- add_acknowledgement, then the pruning reads of get_level / get_count
      let es1 := st.engagementState.addAcknowledgement now
      let es2 := (es1.getLevel now).2
      let es3 := (es2.getCount now).2
      ({ decision := .IGNORE,
         reason := .passiveAcknowledgementOnly ackHit.2,
         normalizedText := normalized,
         detectedCommands := [],
         detectedAcknowledgements := ackHit.2 },
       { st with engagementState := es3 })
    else
      ({ decision := .INTERRUPT, reason := .nonAcknowledgementContent,
         normalizedText := normalized,
         detectedCommands := interruptHit.2,
         detectedAcknowledgements := ackHit.2 }, st)

/-- `InterruptionHandler.should_interrupt` from the source. -/
def shouldInterrupt (cfg : HandlerConfig) (st : HandlerState) (text : List Nat)
    (agentIsSpeaking : Bool) (now : ℚ) : Bool :=
  (classify cfg st text agentIsSpeaking now).1.decision = .INTERRUPT

/-- `InterruptionHandler.should_ignore` from the source. -/
def shouldIgnore (cfg : HandlerConfig) (st : HandlerState) (text : List Nat)
    (agentIsSpeaking : Bool) (now : ℚ) : Bool :=
  (classify cfg st text agentIsSpeaking now).1.decision = .IGNORE

/-! ## Auxiliary notions for the theorems -/

/-- `true` when no two adjacent characters are both whitespace. -/
def noTwoSpaces : List Nat → Bool
  | c :: d :: rest => !(isSpaceChar c && isSpaceChar d) && noTwoSpaces (d :: rest)
  | _ => true

/-- `true` when every hyphen in the list has word characters on both sides;
`prevWord` states whether the (virtual) character before the list is a word
character. -/
def hyphensOk (prevWord : Bool) : List Nat → Bool
  | [] => true
  | c :: rest =>
    (if c == 45 then prevWord && headIsWord rest else true) &&
      hyphensOk (isWordChar c) rest

/-- Shape of the output of `normalizeText`: only lowercase word characters,
interior hyphens and single interior spaces. -/
def NormalizedInv (t : List Nat) : Prop :=
  (∀ c ∈ t, (isWordChar c = true ∧ ¬(65 ≤ c ∧ c ≤ 90)) ∨ c = 45 ∨ c = 32) ∧
  (∀ c, t.head? = some c → isSpaceChar c = false) ∧
  (∀ c, t.getLast? = some c → isSpaceChar c = false) ∧
  noTwoSpaces t = true ∧
  hyphensOk false t = true

/-- One operation on a `SatisfactionState`: an `update` with arbitrary text
and vocabulary sets, or a `decay` tick. -/
inductive SatStep
  | upd (text : List Nat) (positiveIndicators negativeIndicators : List (List Nat))
  | dec

/-- Apply one `SatStep`. -/
def applySatStep (st : SatisfactionState) : SatStep → SatisfactionState
  | .upd text pos neg => st.update text pos neg
  | .dec => st.decay

/-- Run a sequence of update/decay operations from the freshly constructed
state (score `0.0`). -/
def runSatSteps (steps : List SatStep) : SatisfactionState :=
  steps.foldl applySatStep {}

/-- Token-aligned occurrence: the phrase's token sequence occurs as a
contiguous run of whole tokens of the text. -/
def tokenAligned (phrase text : List Nat) : Bool :=
  containsSeq (tokenize phrase) (tokenize text)

/-! ## Sanity checks: the spec's concrete scenarios -/

theorem scenario_normalize_okay_yeah :
    normalizeText (str " Okay... yeah!! ") = str "okay yeah" := by decide

theorem scenario_normalize_uh_huh :
    normalizeText (str "  UH-HUH!  ") = str "uh-huh" := by decide

theorem scenario_tokenize :
    tokenize (str "a b  c") = [str "a", str "b", str "c"] := by decide

theorem scenario_yeah_speaking :
    (classify defaultConfig initialHandlerState (str "yeah") true 0).1.decision
      = .IGNORE := by decide

theorem scenario_stop_speaking :
    (classify defaultConfig initialHandlerState (str "stop") true 0).1.decision
      = .INTERRUPT := by decide

theorem scenario_yeah_silent :
    (classify defaultConfig initialHandlerState (str "yeah") false 0).1.decision
      = .PROCESS := by decide

theorem scenario_command_wins :
    (classify defaultConfig initialHandlerState (str "yeah okay but wait") true
      0).1.decision = .INTERRUPT := by decide

theorem scenario_unrecognized_content :
    (classify defaultConfig initialHandlerState (str "hello there") true
      0).1.decision = .INTERRUPT := by decide

theorem scenario_empty_speaking :
    (classify defaultConfig initialHandlerState (str "") true 0).1.reason
      = .emptyInput := by decide

theorem scenario_ack_only_true :
    isOnlyAcknowledgements (str "yeah ok") DEFAULT_PASSIVE_ACKNOWLEDGEMENTS
      = true := by decide

theorem scenario_ack_only_false :
    isOnlyAcknowledgements (str "yeah but wait") DEFAULT_PASSIVE_ACKNOWLEDGEMENTS
      = false := by decide

/-! ## Helper lemmas -/

theorem isEmpty_false_of_ne_nil {t : List Nat} (h : t ≠ []) :
    t.isEmpty = false := by
  cases t with
  | nil => exact absurd rfl h
  | cons c r => rfl

theorem cleanupOld_addAcknowledgement (es : EngagementState) (now : ℚ) :
    (es.addAcknowledgement now).cleanupOld now = es.addAcknowledgement now := by
  simp only [EngagementState.addAcknowledgement, EngagementState.cleanupOld,
    List.filter_filter]
  simp

/-! ## C4: empty input -/

/-- C4: whenever the input normalizes to the empty string, `classify` returns
IGNORE with reason "empty input" for either value of `agentSpeaking`, and
leaves both tracker states untouched. -/
theorem classify_empty_input (cfg : HandlerConfig) (st : HandlerState)
    (text : List Nat) (sp : Bool) (now : ℚ)
    (h : normalizeText text = []) :
    classify cfg st text sp now =
      ({ decision := .IGNORE, reason := .emptyInput, normalizedText := [] },
        st) := by
  simp [classify, h]

/-- Witness for `classify_empty_input` at the punctuation-only input `" ?! "`
with the agent speaking. -/
theorem classify_empty_input_witness :
    normalizeText (str " ?! ") = [] ∧
    classify defaultConfig initialHandlerState (str " ?! ") true 0 =
      ({ decision := .IGNORE, reason := .emptyInput, normalizedText := [] },
        initialHandlerState) :=
  ⟨by decide,
   classify_empty_input defaultConfig initialHandlerState (str " ?! ") true 0
     (by decide)⟩

/-! ## C5: tracker states never influence the classification -/

/-- C5: the returned `InterruptionResult` (decision, reason, normalized text
and both match lists) is the same for any two tracker states; the
observational trackers never influence the classification. -/
theorem classify_result_independent_of_trackers (cfg : HandlerConfig)
    (st st' : HandlerState) (text : List Nat) (sp : Bool) (now : ℚ) :
    (classify cfg st text sp now).1 = (classify cfg st' text sp now).1 := by
  cases h1 : (normalizeText text).isEmpty with
  | true => simp [classify, h1]
  | false =>
    cases sp with
    | false => simp [classify, h1]
    | true =>
      cases h3 : (containsAnyPhrase (normalizeText text) cfg.interruptCommands).1 with
      | true => simp [classify, h1, h3]
      | false =>
        cases h4 : isOnlyAcknowledgements (normalizeText text) cfg.passiveAcknowledgements with
        | true => simp [classify, h1, h3, h4]
        | false => simp [classify, h1, h3, h4]

/-! ## C3: agent silent -/

/-- C3: with the agent silent and a non-empty normalization, `classify`
returns PROCESS with reason "agent is silent, processing normally", updates
the satisfaction tracker with the raw pre-normalization text, and carries the
command/acknowledgement matches in the result. -/
theorem classify_agent_silent (cfg : HandlerConfig) (st : HandlerState)
    (text : List Nat) (now : ℚ) (h : normalizeText text ≠ []) :
    classify cfg st text false now =
      ({ decision := .PROCESS, reason := .agentSilent,
         normalizedText := normalizeText text,
         detectedCommands :=
           (containsAnyPhrase (normalizeText text) cfg.interruptCommands).2,
         detectedAcknowledgements :=
           (containsAnyPhrase (normalizeText text) cfg.passiveAcknowledgements).2 },
       { st with satisfactionState :=
           (st.satisfactionState.update text
             cfg.positiveIndicators cfg.negativeIndicators) }) := by
  simp [classify, isEmpty_false_of_ne_nil h]

/-- Witness for `classify_agent_silent` at `"yeah"` (an acknowledgement and a
positive-sentiment word) while the agent is silent. -/
theorem classify_agent_silent_witness :
    normalizeText (str "yeah") ≠ [] ∧
    classify defaultConfig initialHandlerState (str "yeah") false 0 =
      ({ decision := .PROCESS, reason := .agentSilent,
         normalizedText := normalizeText (str "yeah"),
         detectedCommands :=
           (containsAnyPhrase (normalizeText (str "yeah"))
             defaultConfig.interruptCommands).2,
         detectedAcknowledgements :=
           (containsAnyPhrase (normalizeText (str "yeah"))
             defaultConfig.passiveAcknowledgements).2 },
       { initialHandlerState with satisfactionState :=
           (initialHandlerState.satisfactionState.update (str "yeah")
             defaultConfig.positiveIndicators
             defaultConfig.negativeIndicators) }) :=
  ⟨by decide,
   classify_agent_silent defaultConfig initialHandlerState (str "yeah") 0
     (by decide)⟩

/-! ## C1: interrupt commands have absolute priority -/

theorem containsAnyPhrase_mem {text p : List Nat} {phrases : List (List Nat)}
    (hp : p ∈ phrases)
    (hm : (32 ∈ p ∧ containsSeq p text = true) ∨
          (32 ∉ p ∧ p ∈ tokenize text)) :
    p ∈ (containsAnyPhrase text phrases).2 := by
  unfold containsAnyPhrase
  rcases hm with ⟨h32, hsub⟩ | ⟨h32, htok⟩
  · exact List.mem_append_left _ (List.mem_filter.2 ⟨hp, by simp [h32, hsub]⟩)
  · exact List.mem_append_right _ (List.mem_filter.2 ⟨hp, by simp [h32, htok]⟩)

theorem containsAnyPhrase_fst_eq (text : List Nat)
    (phrases : List (List Nat)) :
    (containsAnyPhrase text phrases).1 =
      !(containsAnyPhrase text phrases).2.isEmpty := rfl

theorem containsAnyPhrase_fst_true {text p : List Nat}
    {phrases : List (List Nat)} (hp : p ∈ phrases)
    (hm : (32 ∈ p ∧ containsSeq p text = true) ∨
          (32 ∉ p ∧ p ∈ tokenize text)) :
    (containsAnyPhrase text phrases).1 = true := by
  have hne : (containsAnyPhrase text phrases).2 ≠ [] :=
    List.ne_nil_of_mem (containsAnyPhrase_mem hp hm)
  rw [containsAnyPhrase_fst_eq]
  simp [List.isEmpty_iff, hne]

theorem match_ne_nil {text p : List Nat}
    (hm : (32 ∈ p ∧ containsSeq p text = true) ∨
          (32 ∉ p ∧ p ∈ tokenize text)) :
    text ≠ [] := by
  intro he
  subst he
  rcases hm with ⟨h32, hsub⟩ | ⟨_, htok⟩
  · have hne : p ≠ [] := List.ne_nil_of_mem h32
    simp [containsSeq, List.isEmpty_iff, hne] at hsub
  · simp [tokenize, tokenizeAux] at htok

/-- C1: whenever the normalized input matches the interrupt-command
vocabulary (a multi-word phrase as a literal substring, or a single word as a
token), `classify` with the agent speaking returns INTERRUPT, the reason names
the matched phrases, and the matched phrase is among them — regardless of any
acknowledgement content also present. -/
theorem classify_interrupt_priority (cfg : HandlerConfig) (st : HandlerState)
    (text : List Nat) (now : ℚ) (p : List Nat)
    (hp : p ∈ cfg.interruptCommands)
    (hm : (32 ∈ p ∧ containsSeq p (normalizeText text) = true) ∨
          (32 ∉ p ∧ p ∈ tokenize (normalizeText text))) :
    (classify cfg st text true now).1.decision = .INTERRUPT ∧
    (classify cfg st text true now).1.reason =
      .interruptCommandDetected
        (containsAnyPhrase (normalizeText text) cfg.interruptCommands).2 ∧
    p ∈ (containsAnyPhrase (normalizeText text) cfg.interruptCommands).2 := by
  have hne := match_ne_nil hm
  have hfst := containsAnyPhrase_fst_true hp hm
  have hmem := containsAnyPhrase_mem hp hm
  refine ⟨?_, ?_, hmem⟩ <;>
    simp [classify, isEmpty_false_of_ne_nil hne, hfst]

/-- Witness for `classify_interrupt_priority` at `"yeah stop"`, where the
acknowledgement `"yeah"` is also present. -/
theorem classify_interrupt_priority_witness :
    (classify defaultConfig initialHandlerState (str "yeah stop") true
      0).1.decision = .INTERRUPT ∧
    (classify defaultConfig initialHandlerState (str "yeah stop") true
      0).1.reason =
      .interruptCommandDetected
        (containsAnyPhrase (normalizeText (str "yeah stop"))
          defaultConfig.interruptCommands).2 ∧
    str "stop" ∈ (containsAnyPhrase (normalizeText (str "yeah stop"))
      defaultConfig.interruptCommands).2 :=
  classify_interrupt_priority defaultConfig initialHandlerState
    (str "yeah stop") 0 (str "stop") (by decide) (by decide)

/-! ## C2: acknowledgement-only check decides IGNORE vs INTERRUPT -/

/-- C2: with the agent speaking, a non-empty normalization and no
interrupt-command match, the decision is IGNORE — with one engagement
timestamp recorded — exactly when the acknowledgement-only check holds of the
normalized text; otherwise it is INTERRUPT with reason "contains
non-acknowledgement content" and unchanged state. -/
theorem classify_ack_only_decides (cfg : HandlerConfig) (st : HandlerState)
    (text : List Nat) (now : ℚ)
    (hne : normalizeText text ≠ [])
    (hno : (containsAnyPhrase (normalizeText text) cfg.interruptCommands).1
      = false) :
    ((classify cfg st text true now).1.decision = .IGNORE ↔
      isOnlyAcknowledgements (normalizeText text)
        cfg.passiveAcknowledgements = true) ∧
    (isOnlyAcknowledgements (normalizeText text) cfg.passiveAcknowledgements
        = true →
      (classify cfg st text true now).1.reason =
        .passiveAcknowledgementOnly
          (containsAnyPhrase (normalizeText text)
            cfg.passiveAcknowledgements).2 ∧
      (classify cfg st text true now).2 =
        { st with engagementState :=
            st.engagementState.addAcknowledgement now }) ∧
    (isOnlyAcknowledgements (normalizeText text) cfg.passiveAcknowledgements
        = false →
      (classify cfg st text true now).1.decision = .INTERRUPT ∧
      (classify cfg st text true now).1.reason =
        .nonAcknowledgementContent ∧
      (classify cfg st text true now).2 = st) := by
  cases hoa : isOnlyAcknowledgements (normalizeText text)
      cfg.passiveAcknowledgements with
  | true =>
    simp [classify, isEmpty_false_of_ne_nil hne, hno, hoa,
      EngagementState.getLevel, EngagementState.getCount,
      cleanupOld_addAcknowledgement]
  | false =>
    simp [classify, isEmpty_false_of_ne_nil hne, hno, hoa]

/-- Witness for `classify_ack_only_decides` at `"yeah"` while the agent is
speaking. -/
theorem classify_ack_only_decides_witness :
    ((classify defaultConfig initialHandlerState (str "yeah") true
        0).1.decision = .IGNORE ↔
      isOnlyAcknowledgements (normalizeText (str "yeah"))
        defaultConfig.passiveAcknowledgements = true) ∧
    (isOnlyAcknowledgements (normalizeText (str "yeah"))
        defaultConfig.passiveAcknowledgements = true →
      (classify defaultConfig initialHandlerState (str "yeah") true
          0).1.reason =
        .passiveAcknowledgementOnly
          (containsAnyPhrase (normalizeText (str "yeah"))
            defaultConfig.passiveAcknowledgements).2 ∧
      (classify defaultConfig initialHandlerState (str "yeah") true 0).2 =
        { initialHandlerState with engagementState :=
            initialHandlerState.engagementState.addAcknowledgement 0 }) ∧
    (isOnlyAcknowledgements (normalizeText (str "yeah"))
        defaultConfig.passiveAcknowledgements = false →
      (classify defaultConfig initialHandlerState (str "yeah") true
          0).1.decision = .INTERRUPT ∧
      (classify defaultConfig initialHandlerState (str "yeah") true
          0).1.reason = .nonAcknowledgementContent ∧
      (classify defaultConfig initialHandlerState (str "yeah") true 0).2 =
        initialHandlerState) :=
  classify_ack_only_decides defaultConfig initialHandlerState (str "yeah") 0
    (by decide) (by decide)

/-! ## C7: frame conditions on classify's side effects -/

/-- C7: the satisfaction tracker changes only on silent, non-empty calls (and
then exactly by `update` on the raw text); the engagement tracker changes only
on speaking calls that decide IGNORE by the acknowledgement-only path (and
then exactly by recording one timestamp); in particular a speaking call leaves
the satisfaction state unchanged and a silent call leaves the engagement state
unchanged.  `HandlerState` consists of exactly these two trackers, so no other
engine state exists to be mutated. -/
theorem classify_frame_effects (cfg : HandlerConfig) (st : HandlerState)
    (text : List Nat) (sp : Bool) (now : ℚ) :
    ((classify cfg st text sp now).2.engagementState = st.engagementState ∨
      (sp = true ∧ (classify cfg st text sp now).1.decision = .IGNORE ∧
        normalizeText text ≠ [] ∧
        (classify cfg st text sp now).2.engagementState =
          st.engagementState.addAcknowledgement now)) ∧
    ((classify cfg st text sp now).2.satisfactionState = st.satisfactionState ∨
      (sp = false ∧ normalizeText text ≠ [] ∧
        (classify cfg st text sp now).2.satisfactionState =
          st.satisfactionState.update text cfg.positiveIndicators
            cfg.negativeIndicators)) ∧
    (classify cfg st text true now).2.satisfactionState =
      st.satisfactionState ∧
    (classify cfg st text false now).2.engagementState =
      st.engagementState := by
  have hT : ∀ sp', (classify cfg st text sp' now).2.engagementState
        = st.engagementState ∨
      (sp' = true ∧ (classify cfg st text sp' now).1.decision = .IGNORE ∧
        normalizeText text ≠ [] ∧
        (classify cfg st text sp' now).2.engagementState =
          st.engagementState.addAcknowledgement now) := by
    intro sp'
    cases h1 : (normalizeText text).isEmpty with
    | true => left; simp [classify, h1]
    | false =>
      have hne : normalizeText text ≠ [] := by
        simpa [List.isEmpty_iff] using h1
      cases sp' with
      | false => left; simp [classify, h1]
      | true =>
        cases h3 : (containsAnyPhrase (normalizeText text)
            cfg.interruptCommands).1 with
        | true => left; simp [classify, h1, h3]
        | false =>
          cases h4 : isOnlyAcknowledgements (normalizeText text)
              cfg.passiveAcknowledgements with
          | true =>
            right
            refine ⟨rfl, ?_, hne, ?_⟩ <;>
              simp [classify, h1, h3, h4, EngagementState.getLevel,
                EngagementState.getCount, cleanupOld_addAcknowledgement]
          | false => left; simp [classify, h1, h3, h4]
  have hS : ∀ sp', (classify cfg st text sp' now).2.satisfactionState
        = st.satisfactionState ∨
      (sp' = false ∧ normalizeText text ≠ [] ∧
        (classify cfg st text sp' now).2.satisfactionState =
          st.satisfactionState.update text cfg.positiveIndicators
            cfg.negativeIndicators) := by
    intro sp'
    cases h1 : (normalizeText text).isEmpty with
    | true => left; simp [classify, h1]
    | false =>
      have hne : normalizeText text ≠ [] := by
        simpa [List.isEmpty_iff] using h1
      cases sp' with
      | false => right; exact ⟨rfl, hne, by simp [classify, h1]⟩
      | true =>
        cases h3 : (containsAnyPhrase (normalizeText text)
            cfg.interruptCommands).1 with
        | true => left; simp [classify, h1, h3]
        | false =>
          cases h4 : isOnlyAcknowledgements (normalizeText text)
              cfg.passiveAcknowledgements with
          | true => left; simp [classify, h1, h3, h4]
          | false => left; simp [classify, h1, h3, h4]
  refine ⟨hT sp, hS sp, ?_, ?_⟩
  · rcases hS true with h | ⟨h, _⟩
    · exact h
    · exact absurd h (by simp)
  · rcases hT false with h | ⟨h, _⟩
    · exact h
    · exact absurd h (by simp)

/-! ## C6: the satisfaction score is bounded -/

theorem satisfaction_update_preserves_bounds (st : SatisfactionState)
    (text : List Nat) (pos neg : List (List Nat))
    (h1 : -1 ≤ st.score) (h2 : st.score ≤ 1) :
    -1 ≤ (st.update text pos neg).score ∧ (st.update text pos neg).score ≤ 1 := by
  unfold SatisfactionState.update
  dsimp only
  split
  · constructor
    · simp only [le_min_iff]
      constructor <;> [norm_num; unfold POSITIVE_DELTA] <;> linarith
    · exact min_le_left _ _
  · split
    · constructor
      · exact le_max_left _ _
      · simp only [max_le_iff]
        constructor <;> [norm_num; unfold NEGATIVE_DELTA] <;> linarith
    · exact ⟨h1, h2⟩

theorem satisfaction_decay_preserves_bounds (st : SatisfactionState)
    (h1 : -1 ≤ st.score) (h2 : st.score ≤ 1) :
    -1 ≤ st.decay.score ∧ st.decay.score ≤ 1 := by
  unfold SatisfactionState.decay
  split
  · split
    · constructor
      · have := le_max_left (0 : ℚ) (st.score - DECAY_RATE); linarith
      · simp only [max_le_iff]
        constructor <;> [norm_num; unfold DECAY_RATE] <;> linarith
    · constructor
      · simp only [le_min_iff]
        constructor <;> [norm_num; unfold DECAY_RATE] <;> linarith
      · have := min_le_left (0 : ℚ) (st.score + DECAY_RATE); linarith
  · exact ⟨h1, h2⟩

theorem satSteps_foldl_preserves_bounds (steps : List SatStep)
    (st : SatisfactionState) (h1 : -1 ≤ st.score) (h2 : st.score ≤ 1) :
    -1 ≤ (steps.foldl applySatStep st).score ∧
      (steps.foldl applySatStep st).score ≤ 1 := by
  induction steps generalizing st with
  | nil => exact ⟨h1, h2⟩
  | cons step rest ih =>
    cases step with
    | upd text pos neg =>
      have := satisfaction_update_preserves_bounds st text pos neg h1 h2
      exact ih _ this.1 this.2
    | dec =>
      have := satisfaction_decay_preserves_bounds st h1 h2
      exact ih _ this.1 this.2

/-- C6: starting from score `0.0`, after any sequence of `update` and `decay`
operations with arbitrary texts and vocabulary sets, the satisfaction score
stays within `[-1, 1]`. -/
theorem satisfaction_score_bounded (steps : List SatStep) :
    -1 ≤ (runSatSteps steps).score ∧ (runSatSteps steps).score ≤ 1 :=
  satSteps_foldl_preserves_bounds steps {} (by norm_num) (by norm_num)

/-! ## C9: decay semantics (corrected: the 0.01 dead band) -/

/-- Counterexample to C9 as stated: at score `0.005` (inside the `0.01` dead
band) `decay` leaves the score unchanged, whereas nudging toward zero by the
step `0.05` (clamped at zero) would give `0`. -/
theorem satisfaction_decay_deadband_cex :
    (SatisfactionState.decay { score := 1 / 200 }).score = 1 / 200 ∧
    max 0 ((1 : ℚ) / 200 - DECAY_RATE) = 0 ∧
    ((1 : ℚ) / 200 ≠ 0) := by
  have hc : ¬ ((1 : ℚ) / 100 < |(1 : ℚ) / 200|) := by
    rw [abs_of_pos (by norm_num)]
    norm_num
  refine ⟨?_, ?_, by norm_num⟩
  · simp only [SatisfactionState.decay]
    rw [if_neg hc]
  · rw [max_eq_left (by norm_num [DECAY_RATE])]

/-- C9 amended: outside the `0.01` dead band `decay` moves the score toward
zero by the fixed step `0.05`, clamped at zero; inside the dead band it leaves
the state unchanged; and `classify` never invokes `decay` — it changes the
satisfaction state only through `update`. -/
theorem satisfaction_decay_spec :
    (∀ st : SatisfactionState, 1 / 100 < |st.score| → 0 < st.score →
      st.decay.score = max 0 (st.score - DECAY_RATE)) ∧
    (∀ st : SatisfactionState, 1 / 100 < |st.score| → st.score ≤ 0 →
      st.decay.score = min 0 (st.score + DECAY_RATE)) ∧
    (∀ st : SatisfactionState, |st.score| ≤ 1 / 100 → st.decay = st) ∧
    (∀ (cfg : HandlerConfig) (hst : HandlerState) (text : List Nat)
        (sp : Bool) (now : ℚ),
      (classify cfg hst text sp now).2.satisfactionState =
          hst.satisfactionState ∨
        (classify cfg hst text sp now).2.satisfactionState =
          hst.satisfactionState.update text cfg.positiveIndicators
            cfg.negativeIndicators) := by
  refine ⟨?_, ?_, ?_, ?_⟩
  · intro st hband hpos
    unfold SatisfactionState.decay
    rw [if_pos hband, if_pos hpos]
  · intro st hband hnonpos
    unfold SatisfactionState.decay
    rw [if_pos hband, if_neg (not_lt.2 hnonpos)]
  · intro st hband
    unfold SatisfactionState.decay
    rw [if_neg (not_lt.2 hband)]
  · intro cfg hst text sp now
    cases h1 : (normalizeText text).isEmpty with
    | true => left; simp [classify, h1]
    | false =>
      cases sp with
      | false => right; simp [classify, h1]
      | true =>
        cases h3 : (containsAnyPhrase (normalizeText text)
            cfg.interruptCommands).1 with
        | true => left; simp [classify, h1, h3]
        | false =>
          cases h4 : isOnlyAcknowledgements (normalizeText text)
              cfg.passiveAcknowledgements with
          | true => left; simp [classify, h1, h3, h4]
          | false => left; simp [classify, h1, h3, h4]

/-- Witness for `satisfaction_decay_spec` at score `1`: decay brings it to
`0.95`. -/
theorem satisfaction_decay_spec_witness :
    (SatisfactionState.decay { score := 1 }).score =
      max 0 ((1 : ℚ) - DECAY_RATE) :=
  satisfaction_decay_spec.1 { score := 1 } (by norm_num [abs_one])
    (by norm_num)

/-! ## C10: multi-word matching is not word-boundary-aware -/

/-- C10: `"household only"` is a normalized text none of whose interrupt
phrases occurs token-aligned, yet the matcher reports the multi-word phrase
`"hold on"` because its characters occur contiguously inside
`"household only"`, and `classify` interrupts while the agent is speaking. -/
theorem phrase_match_overmatches_across_token_boundaries :
    normalizeText (str "household only") = str "household only" ∧
    (DEFAULT_INTERRUPT_COMMANDS.all
      (fun p => !tokenAligned p (str "household only"))) = true ∧
    str "hold on" ∈ DEFAULT_INTERRUPT_COMMANDS ∧
    32 ∈ str "hold on" ∧
    containsSeq (str "hold on") (str "household only") = true ∧
    (containsAnyPhrase (str "household only") DEFAULT_INTERRUPT_COMMANDS).1
      = true ∧
    str "hold on" ∈
      (containsAnyPhrase (str "household only") DEFAULT_INTERRUPT_COMMANDS).2 ∧
    (classify defaultConfig initialHandlerState (str "household only") true
      0).1.decision = .INTERRUPT := by
  refine ⟨by decide, by decide, by decide, by decide, by decide, by decide,
    by decide, by decide⟩

/-! ## C8: normalization is idempotent

The proof characterizes the image of `normalizeText` by `NormalizedInv` and
shows every stage of the pipeline is the identity on that image. -/

theorem word_not_space {c : Nat} (h : isWordChar c = true) :
    isSpaceChar c = false := by
  simp [isWordChar] at h
  simp [isSpaceChar]
  omega

theorem space_not_word {c : Nat} (h : isSpaceChar c = true) :
    isWordChar c = false := by
  simp [isSpaceChar] at h
  simp [isWordChar]
  omega

theorem space_ne_45 {c : Nat} (h : isSpaceChar c = true) :
    (c == 45) = false := by
  simp [isSpaceChar] at h
  simp
  omega

theorem word_ne_45 {c : Nat} (h : isWordChar c = true) :
    (c == 45) = false := by
  simp [isWordChar] at h
  simp
  omega

theorem mem_stripLeft {c : Nat} {s : List Nat} (h : c ∈ stripLeft s) :
    c ∈ s := by
  induction s with
  | nil => simpa [stripLeft] using h
  | cons a r ih =>
    by_cases ha : isSpaceChar a
    · rw [stripLeft, List.dropWhile_cons_of_pos ha] at h
      exact List.mem_cons_of_mem _ (ih h)
    · rwa [stripLeft, List.dropWhile_cons_of_neg ha] at h

theorem mem_stripRight {c : Nat} {s : List Nat} (h : c ∈ stripRight s) :
    c ∈ s := by
  induction s with
  | nil => simpa [stripRight] using h
  | cons a r ih =>
    rw [stripRight] at h
    split at h
    · exact absurd h (List.not_mem_nil c)
    · rcases List.mem_cons.1 h with h | h
      · exact h ▸ List.mem_cons_self _ _
      · exact List.mem_cons_of_mem _ (ih h)

theorem mem_strip {c : Nat} {s : List Nat} (h : c ∈ strip s) : c ∈ s :=
  mem_stripLeft (mem_stripRight h)

theorem head?_stripLeft_not_space {s : List Nat} {c : Nat}
    (h : (stripLeft s).head? = some c) : isSpaceChar c = false := by
  induction s with
  | nil => simp [stripLeft] at h
  | cons a r ih =>
    by_cases ha : isSpaceChar a
    · rw [stripLeft, List.dropWhile_cons_of_pos ha] at h
      exact ih h
    · rw [stripLeft, List.dropWhile_cons_of_neg ha] at h
      simp at h
      subst h
      simpa using ha

theorem head?_stripRight {s : List Nat} {c : Nat}
    (h : (stripRight s).head? = some c) : s.head? = some c := by
  cases s with
  | nil => simp [stripRight] at h
  | cons a r =>
    rw [stripRight] at h
    split at h
    · simp at h
    · simpa using h

theorem getLast?_stripRight_not_space {s : List Nat} {c : Nat}
    (h : (stripRight s).getLast? = some c) : isSpaceChar c = false := by
  induction s with
  | nil => simp [stripRight] at h
  | cons a r ih =>
    rw [stripRight] at h
    split at h
    · simp at h
    · next hcond =>
      cases hr : stripRight r with
      | nil =>
        rw [hr] at h
        simp at h
        subst h
        rw [hr] at hcond
        simpa using hcond
      | cons x xs =>
        rw [hr, List.getLast?_cons_cons] at h
        exact ih (hr ▸ h)

theorem stripLeft_eq_self {s : List Nat}
    (h : ∀ c, s.head? = some c → isSpaceChar c = false) :
    stripLeft s = s := by
  cases s with
  | nil => rfl
  | cons a r =>
    rw [stripLeft, List.dropWhile_cons_of_neg]
    simp [h a rfl]

theorem stripRight_eq_self {s : List Nat}
    (h : ∀ c, s.getLast? = some c → isSpaceChar c = false) :
    stripRight s = s := by
  induction s with
  | nil => rfl
  | cons a r ih =>
    cases hr : r with
    | nil =>
      rw [stripRight]
      have := h a (by simp [hr])
      simp [hr, stripRight, this]
    | cons x xs =>
      have hlast : ∀ c, r.getLast? = some c → isSpaceChar c = false := by
        intro c hc
        exact h c (by rw [hr] at hc ⊢; rw [List.getLast?_cons_cons]; exact hc)
      have hrr : stripRight (x :: xs) = x :: xs := hr ▸ ih hlast
      rw [stripRight, hrr]
      simp

theorem noTwoSpaces_tail {c : Nat} {l : List Nat}
    (h : noTwoSpaces (c :: l) = true) : noTwoSpaces l = true := by
  cases l with
  | nil => rfl
  | cons d r =>
    rw [noTwoSpaces, Bool.and_eq_true] at h
    exact h.2

theorem noTwoSpaces_pair {c d : Nat} {l : List Nat}
    (h : noTwoSpaces (c :: l) = true) (hd : l.head? = some d) :
    (isSpaceChar c && isSpaceChar d) = false := by
  cases l with
  | nil => simp at hd
  | cons x r =>
    simp at hd
    subst hd
    rw [noTwoSpaces, Bool.and_eq_true] at h
    have h1 := h.1
    cases hb : (isSpaceChar c && isSpaceChar x)
    · rfl
    · rw [hb] at h1
      simp at h1

theorem noTwoSpaces_cons_of {x : Nat} {l : List Nat}
    (h1 : ∀ y, l.head? = some y → (isSpaceChar x && isSpaceChar y) = false)
    (h2 : noTwoSpaces l = true) : noTwoSpaces (x :: l) = true := by
  cases l with
  | nil => rfl
  | cons y r =>
    rw [noTwoSpaces]
    simp only [Bool.and_eq_true]
    exact ⟨by simp [h1 y rfl], h2⟩

theorem collapseSpaces_cons_nonspace {c : Nat} {r : List Nat}
    (h : isSpaceChar c = false) :
    collapseSpaces (c :: r) = c :: collapseSpaces r := by
  cases r with
  | nil => simp [collapseSpaces, h]
  | cons d rest =>
    rw [collapseSpaces]
    simp [h]

theorem head?_collapseSpaces_space {r : List Nat} :
    ∀ {c : Nat}, isSpaceChar c = true →
      (collapseSpaces (c :: r)).head? = some 32 := by
  induction r with
  | nil => intro c h; simp [collapseSpaces, h]
  | cons d rest ih =>
    intro c h
    rw [collapseSpaces]
    by_cases hd : isSpaceChar d
    · simp only [h, hd, Bool.and_self, if_pos]
      exact ih hd
    · simp [h, hd]

theorem noTwoSpaces_collapseSpaces : ∀ s : List Nat,
    noTwoSpaces (collapseSpaces s) = true
  | [] => rfl
  | [c] => by cases hc : isSpaceChar c <;> simp [collapseSpaces, hc, noTwoSpaces]
  | c :: d :: rest => by
    rw [collapseSpaces]
    by_cases hcd : (isSpaceChar c && isSpaceChar d) = true
    · rw [if_pos hcd]
      exact noTwoSpaces_collapseSpaces (d :: rest)
    · rw [if_neg hcd]
      refine noTwoSpaces_cons_of ?_ (noTwoSpaces_collapseSpaces (d :: rest))
      intro y hy
      by_cases hc : isSpaceChar c
      · have hd : isSpaceChar d = false := by
          cases hdv : isSpaceChar d
          · rfl
          · exact absurd (by simp [hc, hdv]) hcd
        rw [collapseSpaces_cons_nonspace hd] at hy
        simp at hy
        simp [hc, ← hy, hd]
      · simp [hc]

theorem noTwoSpaces_stripLeft {s : List Nat} (h : noTwoSpaces s = true) :
    noTwoSpaces (stripLeft s) = true := by
  induction s with
  | nil => rfl
  | cons a r ih =>
    by_cases ha : isSpaceChar a
    · rw [stripLeft, List.dropWhile_cons_of_pos ha]
      exact ih (noTwoSpaces_tail h)
    · rwa [stripLeft, List.dropWhile_cons_of_neg ha]

theorem noTwoSpaces_stripRight {s : List Nat} (h : noTwoSpaces s = true) :
    noTwoSpaces (stripRight s) = true := by
  induction s with
  | nil => rfl
  | cons a r ih =>
    rw [stripRight]
    split
    · rfl
    · refine noTwoSpaces_cons_of ?_ (ih (noTwoSpaces_tail h))
      intro y hy
      exact noTwoSpaces_pair h (head?_stripRight hy)

theorem hyphensOk_of_head_ne_45 {l : List Nat} (b b' : Bool)
    (h : ∀ c, l.head? = some c → (c == 45) = false) :
    hyphensOk b l = hyphensOk b' l := by
  cases l with
  | nil => rfl
  | cons c r => simp [hyphensOk, h c rfl]

theorem headIsWord_fixHyphens (b : Bool) (l : List Nat) :
    headIsWord (fixHyphens b l) = headIsWord l := by
  cases l with
  | nil => rfl
  | cons c r =>
    rw [fixHyphens, headIsWord, headIsWord]
    by_cases hc : c = 45
    · subst hc
      rw [if_pos (by simp)]
      split
      · rfl
      · decide
    · rw [if_neg (by simpa using hc)]

theorem hyphensOk_fixHyphens : ∀ (s : List Nat) (b : Bool),
    hyphensOk b (fixHyphens b s) = true
  | [], _ => rfl
  | c :: rest, b => by
    have ih := hyphensOk_fixHyphens rest (isWordChar c)
    rw [fixHyphens, hyphensOk]
    by_cases hc : c = 45
    · subst hc
      by_cases hbw : (b && headIsWord rest) = true
      · have hb : b = true := by
          cases b
          · simp at hbw
          · rfl
        have hw : headIsWord rest = true := by
          cases hh : headIsWord rest
          · rw [hh] at hbw; simp at hbw
          · rfl
        simp [hbw, hb, hw, headIsWord_fixHyphens, ih]
      · have ih' : hyphensOk false (fixHyphens false rest) = true := by
          simpa [show isWordChar 45 = false from rfl] using ih
        simp [hbw, ih', show isWordChar 45 = false from rfl,
          show isWordChar 32 = false from rfl]
    · simp [hc, ih]

theorem hyphensOk_collapseSpaces : ∀ (s : List Nat) (b : Bool),
    hyphensOk b s = true → hyphensOk b (collapseSpaces s) = true
  | [], _, _ => rfl
  | [c], b, h => by
    rw [collapseSpaces]
    by_cases hc : isSpaceChar c = true
    · rw [if_pos hc]
      rfl
    · rw [if_neg hc]
      exact h
  | c :: d :: rest, b, h => by
    rw [collapseSpaces]
    by_cases hcd : (isSpaceChar c && isSpaceChar d) = true
    · rw [if_pos hcd]
      have hc : isSpaceChar c = true := by
        cases hcc : isSpaceChar c
        · rw [hcc] at hcd; simp at hcd
        · rfl
      have hd : isSpaceChar d = true := by
        cases hdd : isSpaceChar d
        · rw [hdd] at hcd; simp at hcd
        · rfl
      have h2 : hyphensOk false (d :: rest) = true := by
        rw [hyphensOk, Bool.and_eq_true] at h
        have := h.2
        rwa [space_not_word hc] at this
      have hrec := hyphensOk_collapseSpaces (d :: rest) false h2
      have hhead := head?_collapseSpaces_space (r := rest) hd
      have hne : ∀ e, (collapseSpaces (d :: rest)).head? = some e →
          (e == 45) = false := by
        intro e he
        rw [hhead] at he
        have : (32 : Nat) = e := by simpa using he
        subst this
        rfl
      rw [hyphensOk_of_head_ne_45 b false hne]
      exact hrec
    · rw [if_neg hcd]
      rw [hyphensOk, Bool.and_eq_true] at h
      by_cases hc : isSpaceChar c = true
      · have hd : isSpaceChar d = false := by
          cases hdd : isSpaceChar d
          · rfl
          · exact absurd (by simp [hc, hdd]) hcd
        rw [if_pos hc]
        have h2 := h.2
        rw [space_not_word hc] at h2
        have hrec := hyphensOk_collapseSpaces (d :: rest) false h2
        rw [hyphensOk, Bool.and_eq_true]
        exact ⟨by simp, by simpa [show isWordChar 32 = false from rfl] using hrec⟩
      · rw [if_neg hc]
        have hrec := hyphensOk_collapseSpaces (d :: rest) (isWordChar c) h.2
        rw [hyphensOk, Bool.and_eq_true]
        refine ⟨?_, hrec⟩
        by_cases h45 : c = 45
        · subst h45
          have h1 := h.1
          rw [if_pos (by simp)] at h1
          have hb : b = true ∧ isWordChar d = true := by
            simpa [headIsWord] using h1
          have hd : isSpaceChar d = false := word_not_space hb.2
          rw [if_pos (by simp), collapseSpaces_cons_nonspace hd]
          simp [headIsWord, hb.1, hb.2]
        · rw [if_neg (by simpa using h45)]

theorem hyphensOk_stripLeft {s : List Nat} (h : hyphensOk false s = true) :
    hyphensOk false (stripLeft s) = true := by
  induction s with
  | nil => exact h
  | cons a r ih =>
    by_cases ha : isSpaceChar a = true
    · rw [stripLeft, List.dropWhile_cons_of_pos ha]
      rw [hyphensOk, Bool.and_eq_true] at h
      have h2 := h.2
      rw [space_not_word ha] at h2
      exact ih h2
    · rwa [stripLeft, List.dropWhile_cons_of_neg ha]

theorem hyphensOk_stripRight {s : List Nat} (b : Bool)
    (h : hyphensOk b s = true) : hyphensOk b (stripRight s) = true := by
  induction s generalizing b with
  | nil => exact h
  | cons a r ih =>
    rw [hyphensOk, Bool.and_eq_true] at h
    rw [stripRight]
    split
    · rfl
    · rw [hyphensOk, Bool.and_eq_true]
      refine ⟨?_, ih (isWordChar a) h.2⟩
      by_cases h45 : a = 45
      · subst h45
        have h1 := h.1
        rw [if_pos (by simp)] at h1
        rw [if_pos (by simp)]
        cases r with
        | nil => simp [headIsWord] at h1
        | cons d r' =>
          have hb : b = true ∧ isWordChar d = true := by
            simpa [headIsWord] using h1
          have hd : isSpaceChar d = false := word_not_space hb.2
          rw [stripRight]
          simp [hd, headIsWord, hb.1, hb.2]
      · rw [if_neg (by simpa using h45)]

theorem mem_collapseSpaces {c : Nat} : ∀ (s : List Nat),
    c ∈ collapseSpaces s → (c ∈ s ∧ isSpaceChar c = false) ∨ c = 32
  | [], h => by simp [collapseSpaces] at h
  | [x], h => by
    rw [collapseSpaces] at h
    by_cases hx : isSpaceChar x = true
    · rw [if_pos hx] at h
      right
      simpa using h
    · rw [if_neg hx] at h
      simp at h
      subst h
      exact Or.inl ⟨by simp, by simpa using hx⟩
  | x :: y :: rest, h => by
    rw [collapseSpaces] at h
    by_cases hxy : (isSpaceChar x && isSpaceChar y) = true
    · rw [if_pos hxy] at h
      rcases mem_collapseSpaces (y :: rest) h with ⟨hm, hs⟩ | h32
      · exact Or.inl ⟨List.mem_cons_of_mem _ hm, hs⟩
      · exact Or.inr h32
    · rw [if_neg hxy] at h
      rcases List.mem_cons.1 h with h | h
      · by_cases hx : isSpaceChar x = true
        · rw [if_pos hx] at h
          exact Or.inr h
        · rw [if_neg hx] at h
          subst h
          exact Or.inl ⟨List.mem_cons_self _ _, by simpa using hx⟩
      · rcases mem_collapseSpaces (y :: rest) h with ⟨hm, hs⟩ | h32
        · exact Or.inl ⟨List.mem_cons_of_mem _ hm, hs⟩
        · exact Or.inr h32

theorem mem_fixHyphens {c : Nat} {s : List Nat} :
    ∀ {b : Bool}, c ∈ fixHyphens b s → c ∈ s ∨ c = 32 := by
  induction s with
  | nil => intro b h; simp [fixHyphens] at h
  | cons x rest ih =>
    intro b h
    rw [fixHyphens] at h
    rcases List.mem_cons.1 h with h | h
    · by_cases hx : x = 45
      · subst hx
        rw [if_pos (by simp)] at h
        split at h
        · subst h; exact Or.inl (List.mem_cons_self _ _)
        · exact Or.inr h
      · rw [if_neg (by simpa using hx)] at h
        subst h
        exact Or.inl (List.mem_cons_self _ _)
    · rcases ih h with h | h
      · exact Or.inl (List.mem_cons_of_mem _ h)
      · exact Or.inr h

theorem toLowerChar_not_upper (c : Nat) :
    ¬(65 ≤ toLowerChar c ∧ toLowerChar c ≤ 90) := by
  unfold toLowerChar
  split <;> omega

theorem punctToSpace_classes (c : Nat) :
    isWordChar (punctToSpace c) = true ∨ isSpaceChar (punctToSpace c) = true ∨
      punctToSpace c = 45 := by
  unfold punctToSpace
  split
  · next hcond =>
    simp only [Bool.or_eq_true] at hcond
    rcases hcond with (h | h) | h
    · exact Or.inl h
    · exact Or.inr (Or.inl h)
    · exact Or.inr (Or.inr (by simpa using h))
  · exact Or.inr (Or.inl rfl)

theorem punctToSpace_not_upper {c : Nat} (h : ¬(65 ≤ c ∧ c ≤ 90)) :
    ¬(65 ≤ punctToSpace c ∧ punctToSpace c ≤ 90) := by
  unfold punctToSpace
  split
  · exact h
  · omega

theorem normalizeText_chars (s : List Nat) :
    ∀ c ∈ normalizeText s,
      (isWordChar c = true ∧ ¬(65 ≤ c ∧ c ≤ 90)) ∨ c = 45 ∨ c = 32 := by
  intro c hc
  unfold normalizeText at hc
  have hc1 := mem_strip hc
  rcases mem_collapseSpaces _ hc1 with ⟨hc2, hcsp⟩ | h32
  case inr => exact Or.inr (Or.inr h32)
  rcases mem_fixHyphens hc2 with hc3 | h32
  case inr => exact Or.inr (Or.inr h32)
  rcases List.mem_map.1 hc3 with ⟨a, ha, hpa⟩
  rcases List.mem_map.1 (mem_strip ha) with ⟨a0, _, hla⟩
  have hup := toLowerChar_not_upper a0
  rw [hla] at hup
  have hcup := punctToSpace_not_upper hup
  rw [hpa] at hcup
  have hclasses := punctToSpace_classes a
  rw [hpa] at hclasses
  rcases hclasses with hw | hsp | h45
  · exact Or.inl ⟨hw, hcup⟩
  · rw [hcsp] at hsp
    exact absurd hsp (by simp)
  · exact Or.inr (Or.inl h45)

theorem map_id_of_fix {f : Nat → Nat} : ∀ {t : List Nat},
    (∀ c ∈ t, f c = c) → t.map f = t := by
  intro t
  induction t with
  | nil => intro _; rfl
  | cons a r ih =>
    intro h
    rw [List.map_cons, h a (List.mem_cons_self _ _),
      ih (fun c hc => h c (List.mem_cons_of_mem _ hc))]

theorem toLowerChar_fix {c : Nat}
    (h : (isWordChar c = true ∧ ¬(65 ≤ c ∧ c ≤ 90)) ∨ c = 45 ∨ c = 32) :
    toLowerChar c = c := by
  unfold toLowerChar
  rcases h with ⟨_, hu⟩ | h | h
  · rw [if_neg hu]
  · subst h; rfl
  · subst h; rfl

theorem punctToSpace_fix {c : Nat}
    (h : (isWordChar c = true ∧ ¬(65 ≤ c ∧ c ≤ 90)) ∨ c = 45 ∨ c = 32) :
    punctToSpace c = c := by
  unfold punctToSpace
  rcases h with ⟨hw, _⟩ | h | h
  · rw [if_pos (by simp [hw])]
  · subst h; rfl
  · subst h; rfl

theorem fixHyphens_id {t : List Nat} : ∀ (b : Bool),
    hyphensOk b t = true → fixHyphens b t = t := by
  induction t with
  | nil => intro b _; rfl
  | cons c r ih =>
    intro b h
    rw [hyphensOk, Bool.and_eq_true] at h
    rw [fixHyphens, ih (isWordChar c) h.2]
    by_cases hc : c = 45
    · subst hc
      have h1 := h.1
      rw [if_pos (by simp)] at h1
      rw [if_pos (by simp), if_pos h1]
    · rw [if_neg (by simpa using hc)]

theorem collapseSpaces_id : ∀ {t : List Nat},
    (∀ c ∈ t, isSpaceChar c = true → c = 32) → noTwoSpaces t = true →
      collapseSpaces t = t
  | [], _, _ => rfl
  | [c], hs, _ => by
    rw [collapseSpaces]
    by_cases hc : isSpaceChar c = true
    · rw [if_pos hc, hs c (by simp) hc]
    · rw [if_neg hc]
  | c :: d :: rest, hs, h2 => by
    rw [collapseSpaces]
    have hpair : (isSpaceChar c && isSpaceChar d) = false :=
      noTwoSpaces_pair h2 rfl
    rw [if_neg (by simp [hpair])]
    have htail : collapseSpaces (d :: rest) = d :: rest :=
      collapseSpaces_id (fun e he hse => hs e (List.mem_cons_of_mem _ he) hse)
        (noTwoSpaces_tail h2)
    rw [htail]
    by_cases hc : isSpaceChar c = true
    · rw [if_pos hc, hs c (by simp) hc]
    · rw [if_neg hc]

theorem strip_id {t : List Nat}
    (hh : ∀ c, t.head? = some c → isSpaceChar c = false)
    (hl : ∀ c, t.getLast? = some c → isSpaceChar c = false) :
    strip t = t := by
  rw [strip, stripLeft_eq_self hh, stripRight_eq_self hl]

theorem normalizeText_eq_self {t : List Nat} (h : NormalizedInv t) :
    normalizeText t = t := by
  obtain ⟨hchars, hhead, hlast, hnts, hhy⟩ := h
  have hl : t.map toLowerChar = t :=
    map_id_of_fix (fun c hc => toLowerChar_fix (hchars c hc))
  have hstrip1 : strip t = t := strip_id hhead hlast
  have hp : t.map punctToSpace = t :=
    map_id_of_fix (fun c hc => punctToSpace_fix (hchars c hc))
  have hfix : fixHyphens false t = t := fixHyphens_id false hhy
  have hsp : ∀ c ∈ t, isSpaceChar c = true → c = 32 := by
    intro c hc hspace
    rcases hchars c hc with ⟨hw, _⟩ | h45 | h32
    · rw [word_not_space hw] at hspace
      exact absurd hspace (by simp)
    · subst h45
      exact absurd hspace (by decide)
    · exact h32
  have hcol : collapseSpaces t = t := collapseSpaces_id hsp hnts
  rw [normalizeText, hl, hstrip1, hp, hfix, hcol, hstrip1]

theorem normalizeText_normalized (s : List Nat) :
    NormalizedInv (normalizeText s) := by
  refine ⟨normalizeText_chars s, ?_, ?_, ?_, ?_⟩
  · intro c hc
    exact head?_stripLeft_not_space (head?_stripRight hc)
  · intro c hc
    exact getLast?_stripRight_not_space hc
  · exact noTwoSpaces_stripRight
      (noTwoSpaces_stripLeft (noTwoSpaces_collapseSpaces _))
  · exact hyphensOk_stripRight false
      (hyphensOk_stripLeft (hyphensOk_collapseSpaces _ false
        (hyphensOk_fixHyphens _ false)))

/-- C8: text normalization is idempotent — normalizing an already-normalized
string is a no-op. -/
theorem normalizeText_idempotent (s : List Nat) :
    normalizeText (normalizeText s) = normalizeText s :=
  normalizeText_eq_self (normalizeText_normalized s)
